import Mathlib

/-!
Verification of the backtesting core: a shallow embedding of the
portfolio ledger (`src/risk/portfolio.py`), the risk manager
(`src/risk/risk_manager.py`), the performance metrics
(`src/risk/metrics.py`) and the engine's signal routing
(`src/backtesting/backtest_engine.py`).  Python floats are modelled as
exact rationals; the sole irrational operation (the square roots inside
the Sharpe ratio) is modelled over the reals, with `Option` capturing
IEEE NaN propagation from the pandas sample standard deviation.
Timestamps are not modelled: no verified property depends on them.
-/

/-- Order side, embedding the `side.upper()` string dispatch of
`Portfolio.update_position` (only the BUY/SELL arms are reachable from
the engine). -/
inductive Side where
  | buy
  | sell
deriving DecidableEq

/-- Embedding of `Position.__init__` state: quantity, average price, last seen price,
cached market value and cached unrealized P&L. -/
structure Position where
  quantity : ℤ
  avg_price : ℚ
  current_price : ℚ
  market_value : ℚ
  unrealized_pl : ℚ
deriving DecidableEq

/-- Embedding of `Position.update_price`: refresh the price-dependent cached fields. -/
def Position.update_price (pos : Position) (current_price : ℚ) : Position :=
  { pos with
      current_price := current_price,
      market_value := pos.quantity * current_price,
      unrealized_pl := (current_price - pos.avg_price) * pos.quantity }

/-- A `Trade` record as appended by `Portfolio.update_position`
(timestamp omitted). -/
structure Trade where
  symbol : String
  side : Side
  quantity : ℤ
  price : ℚ
  commission : ℚ
  pnl : ℚ
deriving DecidableEq

/-- One entry of `Portfolio.equity_curve` (timestamp omitted). -/
structure EquityPoint where
  value : ℚ
  cash : ℚ
  positions_value : ℚ
deriving DecidableEq

/-- The `positions` dict is embedded as an association list with unique
keys, in insertion order. -/
def findPos : List (String × Position) → String → Option Position
  | [], _ => none
  | (s, pos) :: rest, sym => if s = sym then some pos else findPos rest sym

/-- In-place update of the entry for `sym` (dict assignment to an
existing key). -/
def setPos (ps : List (String × Position)) (sym : String) (pos : Position) :
    List (String × Position) :=
  ps.map (fun sp => if sp.1 = sym then (sym, pos) else sp)

/-- Removal of the entry for `sym` (`del self.positions[symbol]`). -/
def erasePos (ps : List (String × Position)) (sym : String) :
    List (String × Position) :=
  ps.filter (fun sp => sp.1 ≠ sym)

/-- Embedding of `Portfolio` state (`__init__`). -/
structure Portfolio where
  initial_capital : ℚ
  cash : ℚ
  positions : List (String × Position)
  trades : List Trade
  equity_curve : List EquityPoint
  portfolio_value : ℚ
  peak_value : ℚ
deriving DecidableEq

/-- Embedding of `Portfolio(initial_capital)`. -/
def Portfolio.init (c : ℚ) : Portfolio :=
  { initial_capital := c, cash := c, positions := [], trades := [],
    equity_curve := [], portfolio_value := c, peak_value := c }

/-- Embedding of `Portfolio.update_position`.  The Python code appends the `Trade`
first and then sets its `pnl` in the SELL arms; here the appended record
carries its final `pnl` directly, which yields the same state. -/
def Portfolio.update_position (p : Portfolio) (symbol : String)
    (quantity : ℤ) (price : ℚ) (side : Side) (commission : ℚ) : Portfolio :=
  match side with
  | Side.buy =>
    let trade : Trade :=
      { symbol := symbol, side := side, quantity := quantity, price := price,
        commission := commission, pnl := 0 }
    match findPos p.positions symbol with
    | some pos =>
      let total_cost := pos.quantity * pos.avg_price + quantity * price
      let total_quantity := pos.quantity + quantity
      let pos' :=
        { pos with
            quantity := total_quantity,
            avg_price := if 0 < total_quantity then total_cost / total_quantity else 0 }
      { p with
          trades := p.trades ++ [trade],
          positions := setPos p.positions symbol pos',
          cash := p.cash - (quantity * price + commission) }
    | none =>
      { p with
          trades := p.trades ++ [trade],
          positions := p.positions ++
            [(symbol,
              { quantity := quantity, avg_price := price, current_price := price,
                market_value := quantity * price, unrealized_pl := 0 })],
          cash := p.cash - (quantity * price + commission) }
  | Side.sell =>
    match findPos p.positions symbol with
    | some pos =>
      if quantity ≥ pos.quantity then
        let realized_pl := (price - pos.avg_price) * pos.quantity
        { p with
            trades := p.trades ++
              [{ symbol := symbol, side := side, quantity := quantity, price := price,
                 commission := commission, pnl := realized_pl - commission }],
            positions := erasePos p.positions symbol,
            cash := p.cash + (quantity * price - commission) }
      else
        let realized_pl := (price - pos.avg_price) * quantity
        { p with
            trades := p.trades ++
              [{ symbol := symbol, side := side, quantity := quantity, price := price,
                 commission := commission, pnl := realized_pl - commission }],
            positions := setPos p.positions symbol
              { pos with quantity := pos.quantity - quantity },
            cash := p.cash + (quantity * price - commission) }
    | none =>
      { p with
          trades := p.trades ++
            [{ symbol := symbol, side := side, quantity := quantity, price := price,
               commission := commission, pnl := 0 }] }

/-- Action of one `prices` entry on one ledger entry: update the price
of the position whose symbol matches, leave every other entry alone. -/
def updateAtF (sym : String) (price : ℚ) (sp : String × Position) :
    String × Position :=
  if sp.1 = sym then (sp.1, sp.2.update_price price) else sp

/-- The per-symbol update inside the `update_prices` loop: a no-op when
the symbol has no open position. -/
def updateAt (ps : List (String × Position)) (sym : String) (price : ℚ) :
    List (String × Position) :=
  ps.map (updateAtF sym price)

/-- The whole `for symbol, price in prices.items()` loop of
`Portfolio.update_prices` (the price map is an association list in
iteration order). -/
def applyPriceUpdates (ps : List (String × Position))
    (prices : List (String × ℚ)) : List (String × Position) :=
  prices.foldl (fun acc sp => updateAt acc sp.1 sp.2) ps

/-- Embedding of `Portfolio._calculate_portfolio_value`: recompute the total value,
raise the peak on a new high, append one equity point. -/
def Portfolio.calculate_portfolio_value (p : Portfolio) : Portfolio :=
  let positions_value := (p.positions.map (fun sp => sp.2.market_value)).sum
  let value := p.cash + positions_value
  { p with
      portfolio_value := value,
      peak_value := if value > p.peak_value then value else p.peak_value,
      equity_curve := p.equity_curve ++
        [{ value := value, cash := p.cash, positions_value := positions_value }] }

/-- Embedding of `Portfolio.update_prices`. -/
def Portfolio.update_prices (p : Portfolio) (prices : List (String × ℚ)) :
    Portfolio :=
  Portfolio.calculate_portfolio_value
    { p with positions := applyPriceUpdates p.positions prices }

/-- Embedding of `Portfolio.get_drawdown`. -/
def Portfolio.get_drawdown (p : Portfolio) : ℚ :=
  if p.peak_value = 0 then 0
  else (p.peak_value - p.portfolio_value) / p.peak_value

/-- Python `int()` applied to an exact quotient: truncation toward
zero. -/
def ratTrunc (x : ℚ) : ℤ :=
  if 0 ≤ x then ⌊x⌋ else -⌊-x⌋

/-- Embedding of `RiskManager.calculate_position_size`; the manager's
`max_loss_per_trade` and `max_position_size` fields are passed
explicitly. -/
def RiskManager.calculate_position_size (p : Portfolio)
    (max_loss_per_trade max_position_size : ℚ)
    (price : ℚ) (stop_loss_pct : ℚ) : ℤ :=
  let risk_amount := p.portfolio_value * max_loss_per_trade
  let risk_per_share := price * stop_loss_pct
  if risk_per_share = 0 then 0
  else
    min (ratTrunc (risk_amount / risk_per_share))
      (ratTrunc (p.portfolio_value * max_position_size / price))

/-- Embedding of `RiskManager._check_buy_order`. -/
def RiskManager.check_buy_order (p : Portfolio)
    (max_position_size max_drawdown : ℚ)
    (quantity : ℤ) (price : ℚ) : Bool × String :=
  let order_value := quantity * price
  if order_value > p.cash then (false, "Insufficient cash")
  else if order_value / p.portfolio_value > max_position_size then
    (false, "Position size exceeds max")
  else if p.get_drawdown > max_drawdown then
    (false, "Current drawdown exceeds max")
  else (true, "Trade approved")

/-- Embedding of `RiskManager._check_sell_order`. -/
def RiskManager.check_sell_order (p : Portfolio) (symbol : String)
    (quantity : ℤ) : Bool × String :=
  match findPos p.positions symbol with
  | none => (false, "No position")
  | some pos =>
    if quantity > pos.quantity then (false, "Insufficient shares")
    else (true, "Trade approved")

/-- Embedding of `RiskManager.check_trade`. -/
def RiskManager.check_trade (p : Portfolio)
    (max_position_size max_drawdown : ℚ) (symbol : String)
    (quantity : ℤ) (price : ℚ) (side : Side) : Bool × String :=
  match side with
  | Side.buy => RiskManager.check_buy_order p max_position_size max_drawdown quantity price
  | Side.sell => RiskManager.check_sell_order p symbol quantity

/-- Embedding of `RiskManager.should_stop_trading`. -/
def RiskManager.should_stop_trading (p : Portfolio) (max_drawdown : ℚ) :
    Bool × String :=
  if p.get_drawdown > max_drawdown then
    (true, "Maximum drawdown threshold reached")
  else if p.cash < 0 then (true, "Negative cash balance")
  else (false, "")

/-- A strategy signal as consumed by `BacktestEngine._process_signal`. -/
inductive SignalType where
  | buy
  | sell
  | hold
deriving DecidableEq

/-- Embedding of `Signal` (timestamp, requested quantity and reason text omitted:
`_process_signal` reads none of them). -/
structure Signal where
  symbol : String
  signal_type : SignalType
  price : ℚ
deriving DecidableEq

/-- Embedding of `BacktestEngine._process_signal` as a state transformer of the
portfolio.  The engine's risk-manager fields are passed explicitly, and
the sizing call uses the source's default `stop_loss_pct = 0.02`. -/
def BacktestEngine.process_signal (p : Portfolio)
    (max_loss_per_trade max_position_size max_drawdown slippage commission : ℚ)
    (sig : Signal) : Portfolio :=
  match sig.signal_type with
  | SignalType.buy =>
    if (findPos p.positions sig.symbol).isSome then p
    else
      let quantity := RiskManager.calculate_position_size p
        max_loss_per_trade max_position_size sig.price (2 / 100)
      if 0 < quantity then
        if (RiskManager.check_trade p max_position_size max_drawdown
            sig.symbol quantity sig.price Side.buy).1 then
          p.update_position sig.symbol quantity (sig.price * (1 + slippage))
            Side.buy commission
        else p
      else p
  | SignalType.sell =>
    match findPos p.positions sig.symbol with
    | none => p
    | some pos =>
      if (RiskManager.check_trade p max_position_size max_drawdown
          sig.symbol pos.quantity sig.price Side.sell).1 then
        p.update_position sig.symbol pos.quantity (sig.price * (1 - slippage))
          Side.sell commission
      else p
  | SignalType.hold => p

/-- A ledger operation: a fill routed into `update_position` or a
revaluation through `update_prices`. -/
inductive Op where
  | fill (symbol : String) (quantity : ℤ) (price : ℚ) (side : Side) (commission : ℚ)
  | reval (prices : List (String × ℚ))
deriving DecidableEq

/-- Apply one ledger operation. -/
def applyOp (p : Portfolio) : Op → Portfolio
  | Op.fill symbol quantity price side commission =>
    p.update_position symbol quantity price side commission
  | Op.reval prices => p.update_prices prices

/-- Apply a sequence of ledger operations in order. -/
def applyOps (p : Portfolio) (ops : List Op) : Portfolio :=
  ops.foldl applyOp p

/-- The loop body state of `PerformanceMetrics.max_drawdown`: running
peak, max drawdown so far, max duration so far, current duration. -/
def mddAux (peak max_dd : ℚ) (max_dd_duration current_dd_duration : ℕ) :
    List ℚ → ℚ × ℕ
  | [] => (max_dd, max_dd_duration)
  | v :: vs =>
    if v > peak then mddAux v max_dd max_dd_duration 0 vs
    else
      mddAux peak (max max_dd ((peak - v) / peak))
        (max max_dd_duration (current_dd_duration + 1))
        (current_dd_duration + 1) vs

/-- Embedding of `PerformanceMetrics.max_drawdown` over the list of equity values. -/
def PerformanceMetrics.max_drawdown : List ℚ → ℚ × ℕ
  | [] => (0, 0)
  | v :: vs => mddAux v 0 0 0 (v :: vs)

/-- Embedding of `PerformanceMetrics.calculate_returns`: successive percentage
changes, the leading NaN dropped. -/
def PerformanceMetrics.calculate_returns (values : List ℚ) : List ℚ :=
  (values.zip values.tail).map (fun ab => (ab.2 - ab.1) / ab.1)

/-- Arithmetic mean of a list of rationals. -/
def listMean (xs : List ℚ) : ℚ :=
  xs.sum / xs.length

/-- The square of the pandas sample standard deviation (`ddof = 1`):
`none` models the NaN produced on fewer than two samples. -/
def sampleVar (xs : List ℚ) : Option ℚ :=
  if xs.length ≤ 1 then none
  else some (((xs.map (fun x => (x - listMean xs) ^ 2)).sum) / (xs.length - 1))

/-- Embedding of `PerformanceMetrics.sharpe_ratio`; `none` models a NaN result.  The
`returns.std() == 0` guard is `sampleVar returns = some 0` because
`NaN == 0` is false in IEEE arithmetic. -/
noncomputable def PerformanceMetrics.sharpe_ratio (returns : List ℚ)
    (risk_free_rate periods_per_year : ℚ) : Option ℝ :=
  if returns.length = 0 ∨ sampleVar returns = some 0 then some 0
  else
    match sampleVar returns with
    | none => none
    | some v =>
      some (Real.sqrt periods_per_year *
        ((listMean (returns.map (fun r => r - risk_free_rate / periods_per_year)) : ℚ) /
          Real.sqrt v))

/-- The slice of the `PerformanceMetrics.calculate_all_metrics` record
that the verified properties read. -/
structure MetricsRecord where
  total_trades : ℕ
  win_rate : ℚ
  profit_factor : ℚ
  sharpe : Option ℝ

/-- Embedding of `PerformanceMetrics.calculate_all_metrics`, restricted to the fields
above; `none` is the empty record returned on an empty equity curve. -/
noncomputable def PerformanceMetrics.calculate_all_metrics
    (equity_curve : List EquityPoint) (trades : List Trade)
    (risk_free_rate : ℚ) : Option MetricsRecord :=
  if equity_curve = [] then none
  else
    let returns := PerformanceMetrics.calculate_returns
      (equity_curve.map (fun e => e.value))
    let winning_trades := trades.filter (fun t => 0 < t.pnl)
    let losing_trades := trades.filter (fun t => t.pnl < 0)
    some
      { total_trades := trades.length,
        win_rate := if trades = [] then 0 else
          (winning_trades.length : ℚ) / (trades.length : ℚ),
        profit_factor := if losing_trades = [] then 0 else
          |(winning_trades.map (fun t => t.pnl)).sum| /
            |(losing_trades.map (fun t => t.pnl)).sum|,
        sharpe := PerformanceMetrics.sharpe_ratio returns risk_free_rate 252 }

/-- Stated from the spec's words, for comparison with
`RiskManager.calculate_position_size`: the minimum of the two floored
quotients, with an explicit 0 when the per-share risk vanishes. -/
def claimPositionSize (v risk_fraction stop_loss_fraction max_position_fraction price : ℚ) : ℤ :=
  if price * stop_loss_fraction = 0 then 0
  else
    min ⌊v * risk_fraction / (price * stop_loss_fraction)⌋
      ⌊v * max_position_fraction / price⌋

/-- The claimed maximum drawdown, stated from the spec's words: the
maximum over the curve of `(peak - value) / peak` against the running
peak (the prefix maximum up to and including the point). -/
def claimDDFrom (peak : ℚ) : List ℚ → ℚ
  | [] => 0
  | v :: vs => max ((max peak v - v) / max peak v) (claimDDFrom (max peak v) vs)

/-- Entry point of `claimDDFrom`: the running peak starts at the first
value. -/
def claimMaxDD : List ℚ → ℚ
  | [] => 0
  | v :: vs => claimDDFrom v (v :: vs)

/-- The claimed drawdown duration, stated from the spec's words with
*strictly below*: a streak counts only points whose value is strictly
below the running peak, a point equal to the peak breaks the streak, and
a new strict peak resets the counter. -/
def claimDurStrictFrom (peak : ℚ) (current best : ℕ) : List ℚ → ℕ
  | [] => best
  | v :: vs =>
    if v > peak then claimDurStrictFrom v 0 best vs
    else if v < peak then
      claimDurStrictFrom peak (current + 1) (max best (current + 1)) vs
    else claimDurStrictFrom peak 0 best vs

/-- Entry point of `claimDurStrictFrom`. -/
def claimDurStrict : List ℚ → ℕ
  | [] => 0
  | v :: vs => claimDurStrictFrom v 0 0 (v :: vs)

/-- The amended drawdown duration: a streak counts every point that
fails to set a new strict peak (value at most the running peak),
including points equal to the peak. -/
def claimDurLeFrom (peak : ℚ) (current best : ℕ) : List ℚ → ℕ
  | [] => best
  | v :: vs =>
    if v > peak then claimDurLeFrom v 0 best vs
    else claimDurLeFrom peak (current + 1) (max best (current + 1)) vs

/-- Entry point of `claimDurLeFrom`. -/
def claimDurLe : List ℚ → ℕ
  | [] => 0
  | v :: vs => claimDurLeFrom v 0 0 (v :: vs)

lemma findPos_setPos (ps : List (String × Position)) (sym : String)
    (pos pos' : Position) (h : findPos ps sym = some pos) :
    findPos (setPos ps sym pos') sym = some pos' := by
  induction ps with
  | nil => simp [findPos] at h
  | cons sp rest ih =>
    obtain ⟨s, pos1⟩ := sp
    by_cases hs : s = sym
    · subst hs
      simp only [setPos, List.map_cons]
      simp [findPos]
    · simp only [findPos, if_neg hs] at h
      simp only [setPos, List.map_cons] at *
      rw [if_neg (by simpa using hs)]
      simpa [findPos, hs] using ih h

lemma findPos_append_single_self (ps : List (String × Position)) (sym : String)
    (pos : Position) (h : findPos ps sym = none) :
    findPos (ps ++ [(sym, pos)]) sym = some pos := by
  induction ps with
  | nil => simp [findPos]
  | cons sp rest ih =>
    obtain ⟨s, pos1⟩ := sp
    by_cases hs : s = sym
    · simp [findPos, hs] at h
    · simp only [findPos, if_neg hs] at h
      simpa [findPos, hs] using ih h

lemma findPos_erasePos (ps : List (String × Position)) (sym : String) :
    findPos (erasePos ps sym) sym = none := by
  induction ps with
  | nil => simp [erasePos, findPos]
  | cons sp rest ih =>
    obtain ⟨s, pos1⟩ := sp
    by_cases hs : s = sym
    · simpa [erasePos, hs] using ih
    · simpa [erasePos, findPos, hs] using ih

/-- C1.  Applying a BUY fill: re-average an existing position or create
a fresh one, debit the cash by the notional plus commission, append one
trade record. -/
theorem buy_fill_spec (p : Portfolio) (sym : String) (q : ℤ) (pr comm : ℚ) :
    (p.update_position sym q pr Side.buy comm).cash = p.cash - (q * pr + comm) ∧
    (p.update_position sym q pr Side.buy comm).trades =
      p.trades ++ [{ symbol := sym, side := Side.buy, quantity := q, price := pr,
                     commission := comm, pnl := 0 }] ∧
    (∀ pos, findPos p.positions sym = some pos → 0 < pos.quantity + q →
      ∃ pos', findPos (p.update_position sym q pr Side.buy comm).positions sym = some pos' ∧
        pos'.quantity = pos.quantity + q ∧
        pos'.avg_price = (pos.quantity * pos.avg_price + q * pr) / (pos.quantity + q)) ∧
    (findPos p.positions sym = none →
      ∃ pos', findPos (p.update_position sym q pr Side.buy comm).positions sym = some pos' ∧
        pos'.quantity = q ∧ pos'.avg_price = pr) := by
  refine ⟨?_, ?_, ?_, ?_⟩
  · cases h : findPos p.positions sym <;> simp [Portfolio.update_position, h]
  · cases h : findPos p.positions sym <;> simp [Portfolio.update_position, h]
  · intro pos hpos hq
    have hfind : findPos (p.update_position sym q pr Side.buy comm).positions sym =
        some { pos with
                 quantity := pos.quantity + q,
                 avg_price := if 0 < pos.quantity + q then
                   ((pos.quantity : ℚ) * pos.avg_price + (q : ℚ) * pr) /
                     ((pos.quantity + q : ℤ) : ℚ) else 0 } := by
      simp only [Portfolio.update_position, hpos]
      exact findPos_setPos p.positions sym pos _ hpos
    refine ⟨_, hfind, rfl, ?_⟩
    simp only [if_pos hq]
    push_cast
    ring_nf
  · intro hnone
    refine ⟨{ quantity := q, avg_price := pr, current_price := pr,
              market_value := q * pr, unrealized_pl := 0 }, ?_, rfl, rfl⟩
    simp only [Portfolio.update_position, hnone]
    exact findPos_append_single_self p.positions sym _ hnone

/-- Witness for C1: buying 3 shares at 10 with commission 1 from a fresh
100-cash ledger. -/
theorem buy_fill_spec_witness :
    ((Portfolio.init 100).update_position ("A") 3 10 Side.buy 1).cash = 100 - (3 * 10 + 1) ∧
    ∃ pos', findPos ((Portfolio.init 100).update_position ("A") 3 10 Side.buy 1).positions ("A") = some pos' ∧
      pos'.quantity = 3 ∧ pos'.avg_price = 10 := by
  have h := buy_fill_spec (Portfolio.init 100) ("A") 3 10 1
  exact ⟨h.1, h.2.2.2 (by simp [Portfolio.init, findPos])⟩

/-- C2.  Applying a SELL fill against an open position: the trade's
realized P&L is `(price - avg_cost) * min(qty, held) - commission`, the
position is removed when `qty ≥ held` and otherwise shrunk with the
average cost untouched, and the cash is credited with the proceeds minus
commission. -/
theorem sell_fill_spec (p : Portfolio) (sym : String) (q : ℤ) (pr comm : ℚ)
    (pos : Position) (hpos : findPos p.positions sym = some pos) :
    (p.update_position sym q pr Side.sell comm).cash = p.cash + (q * pr - comm) ∧
    (p.update_position sym q pr Side.sell comm).trades =
      p.trades ++ [{ symbol := sym, side := Side.sell, quantity := q, price := pr,
                     commission := comm,
                     pnl := (pr - pos.avg_price) * (min q pos.quantity : ℤ) - comm }] ∧
    (pos.quantity ≤ q →
      findPos (p.update_position sym q pr Side.sell comm).positions sym = none) ∧
    (q < pos.quantity →
      ∃ pos', findPos (p.update_position sym q pr Side.sell comm).positions sym = some pos' ∧
        pos'.quantity = pos.quantity - q ∧ pos'.avg_price = pos.avg_price) := by
  by_cases hq : q ≥ pos.quantity
  · have hmin : min q pos.quantity = pos.quantity := min_eq_right hq
    refine ⟨by simp [Portfolio.update_position, hpos, if_pos hq], ?_, ?_, ?_⟩
    · simp only [Portfolio.update_position, hpos, if_pos hq, hmin]
    · intro _
      simp only [Portfolio.update_position, hpos, if_pos hq]
      exact findPos_erasePos p.positions sym
    · intro hlt
      exact absurd hq (not_le.mpr hlt)
  · have hqlt : q < pos.quantity := not_le.mp hq
    have hmin : min q pos.quantity = q := min_eq_left (le_of_lt hqlt)
    refine ⟨by simp [Portfolio.update_position, hpos, if_neg hq], ?_, ?_, ?_⟩
    · simp only [Portfolio.update_position, hpos, if_neg hq, hmin]
    · intro hle
      exact absurd hle hq
    · intro _
      refine ⟨{ pos with quantity := pos.quantity - q }, ?_, rfl, rfl⟩
      simp only [Portfolio.update_position, hpos, if_neg hq]
      exact findPos_setPos p.positions sym pos _ hpos

/-- Witness for C2: selling 2 of 3 held shares bought at 10, at price
15 with commission 1. -/
theorem sell_fill_spec_witness :
    (((Portfolio.init 100).update_position ("A") 3 10 Side.buy 0).update_position
        ("A") 2 15 Side.sell 1).cash = 70 + (2 * 15 - 1) ∧
    ∃ pos', findPos (((Portfolio.init 100).update_position ("A") 3 10 Side.buy 0).update_position
        ("A") 2 15 Side.sell 1).positions ("A") = some pos' ∧
      pos'.quantity = 1 ∧ pos'.avg_price = 10 := by
  have hpos : findPos ((Portfolio.init 100).update_position ("A") 3 10 Side.buy 0).positions ("A") =
      some { quantity := 3, avg_price := 10, current_price := 10,
             market_value := 30, unrealized_pl := 0 } := by
    norm_num [Portfolio.init, Portfolio.update_position, findPos]
  have h := sell_fill_spec ((Portfolio.init 100).update_position ("A") 3 10 Side.buy 0)
    ("A") 2 15 1 _ hpos
  have hcash : ((Portfolio.init 100).update_position ("A") 3 10 Side.buy 0).cash = 70 := by
    norm_num [Portfolio.init, Portfolio.update_position, findPos]
  refine ⟨by rw [h.1, hcash]; norm_num, ?_⟩
  obtain ⟨pos', h1, h2, h3⟩ := h.2.2.2 (by norm_num)
  exact ⟨pos', h1, by rw [h2]; norm_num, by rw [h3]⟩

/-- The action of the whole price map on a single ledger entry. -/
def applyAll (prices : List (String × ℚ)) (sp : String × Position) :
    String × Position :=
  prices.foldl (fun x q => updateAtF q.1 q.2 x) sp

lemma applyPriceUpdates_eq_map (prices : List (String × ℚ))
    (ps : List (String × Position)) :
    applyPriceUpdates ps prices = ps.map (applyAll prices) := by
  induction prices generalizing ps with
  | nil => exact (List.map_id ps).symm
  | cons q rest ih =>
    have h1 : applyPriceUpdates ps (q :: rest) =
        applyPriceUpdates (ps.map (updateAtF q.1 q.2)) rest := rfl
    rw [h1, ih, List.map_map]
    rfl

lemma update_price_determined (x y : Position) (pr : ℚ)
    (hq : x.quantity = y.quantity) (ha : x.avg_price = y.avg_price) :
    x.update_price pr = y.update_price pr := by
  cases x
  cases y
  simp only at hq ha
  simp [Position.update_price, hq, ha]

lemma applyAll_preserves (prices : List (String × ℚ)) (x : String × Position) :
    (applyAll prices x).1 = x.1 ∧
    (applyAll prices x).2.quantity = x.2.quantity ∧
    (applyAll prices x).2.avg_price = x.2.avg_price := by
  induction prices generalizing x with
  | nil => exact ⟨rfl, rfl, rfl⟩
  | cons q rest ih =>
    have hstep : applyAll (q :: rest) x = applyAll rest (updateAtF q.1 q.2 x) := rfl
    rw [hstep]
    have hx : (updateAtF q.1 q.2 x).1 = x.1 ∧
        (updateAtF q.1 q.2 x).2.quantity = x.2.quantity ∧
        (updateAtF q.1 q.2 x).2.avg_price = x.2.avg_price := by
      unfold updateAtF
      split_ifs with h
      · exact ⟨rfl, rfl, rfl⟩
      · exact ⟨rfl, rfl, rfl⟩
    obtain ⟨h1, h2, h3⟩ := ih (updateAtF q.1 q.2 x)
    exact ⟨h1.trans hx.1, h2.trans hx.2.1, h3.trans hx.2.2⟩

lemma applyAll_pair (prices : List (String × ℚ)) (x y : String × Position)
    (h1 : x.1 = y.1) (h2 : x.2.quantity = y.2.quantity)
    (h3 : x.2.avg_price = y.2.avg_price) :
    applyAll prices x = applyAll prices y ∨
      (applyAll prices x = x ∧ applyAll prices y = y) := by
  induction prices generalizing x y with
  | nil => exact Or.inr ⟨rfl, rfl⟩
  | cons q rest ih =>
    have hx : applyAll (q :: rest) x = applyAll rest (updateAtF q.1 q.2 x) := rfl
    have hy : applyAll (q :: rest) y = applyAll rest (updateAtF q.1 q.2 y) := rfl
    by_cases hm : x.1 = q.1
    · have hxy : updateAtF q.1 q.2 x = updateAtF q.1 q.2 y := by
        unfold updateAtF
        rw [if_pos hm, if_pos (h1 ▸ hm), h1]
        exact congrArg _ (update_price_determined _ _ _ h2 h3)
      rw [hx, hy, hxy]
      exact Or.inl rfl
    · have hx1 : updateAtF q.1 q.2 x = x := by
        unfold updateAtF
        rw [if_neg hm]
      have hy1 : updateAtF q.1 q.2 y = y := by
        unfold updateAtF
        rw [if_neg (h1 ▸ hm)]
      rw [hx, hy, hx1, hy1]
      exact ih x y h1 h2 h3

lemma applyAll_idem (prices : List (String × ℚ)) (x : String × Position) :
    applyAll prices (applyAll prices x) = applyAll prices x := by
  obtain ⟨h1, h2, h3⟩ := applyAll_preserves prices x
  rcases applyAll_pair prices (applyAll prices x) x h1 h2 h3 with h | h
  · rw [h]
  · exact h.1

lemma applyPriceUpdates_idem (ps : List (String × Position))
    (prices : List (String × ℚ)) :
    applyPriceUpdates (applyPriceUpdates ps prices) prices =
      applyPriceUpdates ps prices := by
  rw [applyPriceUpdates_eq_map, applyPriceUpdates_eq_map, List.map_map]
  exact List.map_congr_left (fun x _ => applyAll_idem prices x)

/-- C3.  Revaluing twice with the same price map and no intervening
mutation appends, on each call, exactly one new equity point; the two
points have identical value, cash and positions value, and each balances
`value = cash + positions_value`. -/
theorem revalue_idempotent_shape (p : Portfolio) (prices : List (String × ℚ)) :
    ∃ e : EquityPoint,
      (p.update_prices prices).equity_curve = p.equity_curve ++ [e] ∧
      ((p.update_prices prices).update_prices prices).equity_curve =
        (p.update_prices prices).equity_curve ++ [e] ∧
      e.value = e.cash + e.positions_value := by
  refine ⟨EquityPoint.mk
      (p.cash + ((applyPriceUpdates p.positions prices).map (fun sp => sp.2.market_value)).sum)
      p.cash
      ((applyPriceUpdates p.positions prices).map (fun sp => sp.2.market_value)).sum,
    ?_, ?_, ?_⟩
  · rfl
  · simp only [Portfolio.update_prices, Portfolio.calculate_portfolio_value,
      applyPriceUpdates_idem]
  · rfl

/-- C4.  The circuit breaker halts exactly when the drawdown strictly
exceeds the limit or the cash is strictly negative; at a drawdown equal
to the limit with non-negative cash it does not halt. -/
theorem should_halt_spec (p : Portfolio) (max_drawdown : ℚ) :
    ((RiskManager.should_stop_trading p max_drawdown).1 = true ↔
      (max_drawdown < p.get_drawdown ∨ p.cash < 0)) ∧
    (p.get_drawdown = max_drawdown → 0 ≤ p.cash →
      (RiskManager.should_stop_trading p max_drawdown).1 = false) := by
  constructor
  · unfold RiskManager.should_stop_trading
    split_ifs with h1 h2
    · simp [h1]
    · simp [h2]
    · simp [h1, h2]
  · intro hdd hcash
    unfold RiskManager.should_stop_trading
    split_ifs with h1 h2
    · rw [hdd] at h1
      exact absurd h1 (lt_irrefl _)
    · exact absurd h2 (not_lt.mpr hcash)
    · rfl

/-- Witness for C4, Scenario E: buy 1 share at 50, mark it at 50, then
mark it at 30 — the drawdown is exactly 0.20 and the breaker stays
silent at a 0.20 limit. -/
theorem should_halt_spec_witness :
    (RiskManager.should_stop_trading
      (applyOps (Portfolio.init 100)
        [Op.fill ("A") 1 50 Side.buy 0, Op.reval [(("A"), 50)], Op.reval [(("A"), 30)]])
      (1/5)).1 = false := by
  refine (should_halt_spec _ (1/5)).2 ?_ ?_
  · norm_num [applyOps, applyOp, Portfolio.init, Portfolio.update_position,
      Portfolio.update_prices, Portfolio.calculate_portfolio_value, applyPriceUpdates,
      updateAt, updateAtF, findPos, Position.update_price, Portfolio.get_drawdown, List.foldl]
  · norm_num [applyOps, applyOp, Portfolio.init, Portfolio.update_position,
      Portfolio.update_prices, Portfolio.calculate_portfolio_value, applyPriceUpdates,
      updateAt, updateAtF, findPos, Position.update_price, List.foldl]

/-- C5 counterexample: at a negative portfolio value the code's `int()`
truncation toward zero differs from the claimed floor — value −105,
price 10, the default fractions: the code returns −10, the claimed
formula −11. -/
theorem position_size_counterexample :
    RiskManager.calculate_position_size (Portfolio.init (-105)) (2/100) (1/10) 10 (2/100) = -10 ∧
    claimPositionSize (-105) (2/100) (2/100) (1/10) 10 = -11 := by
  constructor
  · norm_num [RiskManager.calculate_position_size, ratTrunc, Portfolio.init]
  · norm_num [claimPositionSize]

/-- C5 amended: on non-negative portfolio values and fractions and a
positive price — where truncation and floor agree — the sizing equals
the claimed min-of-floors, with 0 when the per-share risk vanishes. -/
theorem position_size_spec (p : Portfolio) (mlpt mps price slp : ℚ)
    (hv : 0 ≤ p.portfolio_value) (hmlpt : 0 ≤ mlpt) (hmps : 0 ≤ mps)
    (hprice : 0 < price) (hslp : 0 ≤ slp) :
    RiskManager.calculate_position_size p mlpt mps price slp =
      claimPositionSize p.portfolio_value mlpt slp mps price := by
  unfold RiskManager.calculate_position_size claimPositionSize
  by_cases h : price * slp = 0
  · simp [h]
  · rw [if_neg h, if_neg h]
    have hslp' : slp ≠ 0 := fun he => h (by rw [he, mul_zero])
    have hr : 0 < price * slp := mul_pos hprice (lt_of_le_of_ne hslp (Ne.symm hslp'))
    have h1 : 0 ≤ p.portfolio_value * mlpt / (price * slp) :=
      div_nonneg (mul_nonneg hv hmlpt) (le_of_lt hr)
    have h2 : 0 ≤ p.portfolio_value * mps / price :=
      div_nonneg (mul_nonneg hv hmps) (le_of_lt hprice)
    rw [ratTrunc, if_pos h1, ratTrunc, if_pos h2]

/-- Witness for C5 amended: a 100000 ledger at price 50 with the default
fractions. -/
theorem position_size_spec_witness :
    RiskManager.calculate_position_size (Portfolio.init 100000) (2/100) (1/10) 50 (2/100) =
      claimPositionSize 100000 (2/100) (2/100) (1/10) 50 := by
  have h := position_size_spec (Portfolio.init 100000) (2/100) (1/10) 50 (2/100)
    (by norm_num [Portfolio.init]) (by norm_num) (by norm_num) (by norm_num) (by norm_num)
  simpa [Portfolio.init] using h

/-- C6.  Engine routing: a BUY is ignored whenever a position exists and
otherwise, when sized positive and admitted, fills at
`price * (1 + slippage)` with the configured commission; a SELL is
ignored without a position and otherwise, when admitted, fills the
entire held quantity at `price * (1 - slippage)`. -/
theorem signal_routing_spec (p : Portfolio)
    (mlpt mps mdd slip comm : ℚ) (sym : String) (price : ℚ) :
    ((findPos p.positions sym).isSome →
      BacktestEngine.process_signal p mlpt mps mdd slip comm
        { symbol := sym, signal_type := SignalType.buy, price := price } = p) ∧
    (findPos p.positions sym = none →
      0 < RiskManager.calculate_position_size p mlpt mps price (2/100) →
      (RiskManager.check_trade p mps mdd sym
        (RiskManager.calculate_position_size p mlpt mps price (2/100)) price Side.buy).1 = true →
      BacktestEngine.process_signal p mlpt mps mdd slip comm
        { symbol := sym, signal_type := SignalType.buy, price := price } =
        p.update_position sym (RiskManager.calculate_position_size p mlpt mps price (2/100))
          (price * (1 + slip)) Side.buy comm) ∧
    (findPos p.positions sym = none →
      BacktestEngine.process_signal p mlpt mps mdd slip comm
        { symbol := sym, signal_type := SignalType.sell, price := price } = p) ∧
    (∀ pos, findPos p.positions sym = some pos →
      (RiskManager.check_trade p mps mdd sym pos.quantity price Side.sell).1 = true →
      BacktestEngine.process_signal p mlpt mps mdd slip comm
        { symbol := sym, signal_type := SignalType.sell, price := price } =
        p.update_position sym pos.quantity (price * (1 - slip)) Side.sell comm) := by
  refine ⟨?_, ?_, ?_, ?_⟩
  · intro hsome
    simp only [BacktestEngine.process_signal, if_pos hsome]
  · intro hnone hqty hck
    simp only [BacktestEngine.process_signal, hnone, Option.isSome_none,
      Bool.false_eq_true, if_false, if_pos hqty, hck, if_pos]
  · intro hnone
    simp only [BacktestEngine.process_signal, hnone]
  · intro pos hpos hck
    simp only [BacktestEngine.process_signal, hpos, hck, if_pos]

/-- Witness for C6: a ledger holding 2 shares of a symbol ignores a BUY
signal in it, and a fresh ledger ignores a SELL signal. -/
theorem signal_routing_spec_witness :
    BacktestEngine.process_signal
      ((Portfolio.init 1000).update_position ("A") 2 10 Side.buy 0)
      (2/100) (1/10) (1/5) 0 0
      { symbol := ("A"), signal_type := SignalType.buy, price := 12 } =
      (Portfolio.init 1000).update_position ("A") 2 10 Side.buy 0 ∧
    BacktestEngine.process_signal (Portfolio.init 1000)
      (2/100) (1/10) (1/5) 0 0
      { symbol := ("A"), signal_type := SignalType.sell, price := 12 } =
      Portfolio.init 1000 := by
  constructor
  · exact (signal_routing_spec _ (2/100) (1/10) (1/5) 0 0 ("A") 12).1
      (by norm_num [Portfolio.init, Portfolio.update_position, findPos])
  · exact (signal_routing_spec _ (2/100) (1/10) (1/5) 0 0 ("A") 12).2.2.1
      (by norm_num [Portfolio.init, findPos])

lemma claimDDFrom_nonneg (peak : ℚ) (vs : List ℚ) : 0 ≤ claimDDFrom peak vs := by
  induction vs generalizing peak with
  | nil => exact le_refl 0
  | cons v vs ih =>
    exact le_trans (ih (max peak v)) (le_max_right _ _)

lemma mddAux_fst (vs : List ℚ) : ∀ peak max_dd : ℚ, ∀ mdur cur : ℕ, 0 ≤ max_dd →
    (mddAux peak max_dd mdur cur vs).1 = max max_dd (claimDDFrom peak vs) := by
  induction vs with
  | nil =>
    intro peak max_dd mdur cur h
    exact (max_eq_left h).symm
  | cons v vs ih =>
    intro peak max_dd mdur cur h
    by_cases hv : v > peak
    · rw [show mddAux peak max_dd mdur cur (v :: vs) = mddAux v max_dd mdur 0 vs from by
        simp [mddAux, hv]]
      rw [ih v max_dd mdur 0 h]
      have hmax : max peak v = v := max_eq_right (le_of_lt hv)
      simp only [claimDDFrom, hmax, sub_self, zero_div]
      rw [max_eq_right (claimDDFrom_nonneg v vs)]
    · rw [show mddAux peak max_dd mdur cur (v :: vs) =
          mddAux peak (max max_dd ((peak - v) / peak)) (max mdur (cur + 1)) (cur + 1) vs from by
        simp [mddAux, hv]]
      rw [ih peak _ _ _ (le_trans h (le_max_left _ _))]
      have hmax : max peak v = peak := max_eq_left (not_lt.mp hv)
      simp only [claimDDFrom, hmax]
      exact max_assoc max_dd ((peak - v) / peak) (claimDDFrom peak vs)

lemma mddAux_snd (vs : List ℚ) : ∀ peak max_dd : ℚ, ∀ mdur cur : ℕ,
    (mddAux peak max_dd mdur cur vs).2 = claimDurLeFrom peak cur mdur vs := by
  induction vs with
  | nil =>
    intro peak max_dd mdur cur
    rfl
  | cons v vs ih =>
    intro peak max_dd mdur cur
    by_cases hv : v > peak
    · rw [show mddAux peak max_dd mdur cur (v :: vs) = mddAux v max_dd mdur 0 vs from by
        simp [mddAux, hv]]
      rw [show claimDurLeFrom peak cur mdur (v :: vs) = claimDurLeFrom v 0 mdur vs from by
        simp [claimDurLeFrom, hv]]
      exact ih v max_dd mdur 0
    · rw [show mddAux peak max_dd mdur cur (v :: vs) =
          mddAux peak (max max_dd ((peak - v) / peak)) (max mdur (cur + 1)) (cur + 1) vs from by
        simp [mddAux, hv]]
      rw [show claimDurLeFrom peak cur mdur (v :: vs) =
          claimDurLeFrom peak (cur + 1) (max mdur (cur + 1)) vs from by
        simp [claimDurLeFrom, hv]]
      exact ih peak _ _ _

/-- C7 counterexample: on the two-point curve `[100, 100]` the code
reports a drawdown duration of 2, while no point is ever strictly below
the running peak, so the claimed count is 0. -/
theorem max_drawdown_counterexample :
    PerformanceMetrics.max_drawdown [100, 100] = (0, 2) ∧
    claimDurStrict [100, 100] = 0 := by
  constructor
  · norm_num [PerformanceMetrics.max_drawdown, mddAux]
  · norm_num [claimDurStrict, claimDurStrictFrom]

/-- C7 amended: the reported max drawdown is the maximum of
`(peak - value)/peak` against the running peak, and the duration is the
longest streak of consecutive points at or below the running peak (every
point that fails to set a new strict peak counts, including points equal
to the peak), reset when a new strict peak is set. -/
theorem max_drawdown_spec (vs : List ℚ) :
    PerformanceMetrics.max_drawdown vs = (claimMaxDD vs, claimDurLe vs) := by
  cases vs with
  | nil => rfl
  | cons v vs =>
    have h1 : (PerformanceMetrics.max_drawdown (v :: vs)).1 = claimMaxDD (v :: vs) := by
      show (mddAux v 0 0 0 (v :: vs)).1 = claimMaxDD (v :: vs)
      rw [mddAux_fst (v :: vs) v 0 0 0 (le_refl 0)]
      exact max_eq_right (claimDDFrom_nonneg v (v :: vs))
    have h2 : (PerformanceMetrics.max_drawdown (v :: vs)).2 = claimDurLe (v :: vs) := by
      show (mddAux v 0 0 0 (v :: vs)).2 = claimDurLe (v :: vs)
      rw [mddAux_snd (v :: vs) v 0 0 0]
      rfl
    exact Prod.ext h1 h2

lemma update_position_peak (p : Portfolio) (sym : String) (q : ℤ)
    (pr comm : ℚ) (side : Side) :
    (p.update_position sym q pr side comm).peak_value = p.peak_value := by
  unfold Portfolio.update_position
  cases side
  · cases h : findPos p.positions sym <;> rfl
  · cases h : findPos p.positions sym
    · rfl
    · dsimp only
      split_ifs <;> rfl

lemma update_position_value (p : Portfolio) (sym : String) (q : ℤ)
    (pr comm : ℚ) (side : Side) :
    (p.update_position sym q pr side comm).portfolio_value = p.portfolio_value := by
  unfold Portfolio.update_position
  cases side
  · cases h : findPos p.positions sym <;> rfl
  · cases h : findPos p.positions sym
    · rfl
    · dsimp only
      split_ifs <;> rfl

lemma applyOp_peak_mono (p : Portfolio) (op : Op) :
    p.peak_value ≤ (applyOp p op).peak_value := by
  cases op with
  | fill sym q pr side comm =>
    exact le_of_eq (update_position_peak p sym q pr comm side).symm
  | reval prices =>
    show p.peak_value ≤ (Portfolio.calculate_portfolio_value _).peak_value
    unfold Portfolio.calculate_portfolio_value
    dsimp only
    split_ifs with h
    · exact le_of_lt h
    · exact le_refl _

lemma applyOp_invariant (p : Portfolio) (op : Op)
    (h : p.portfolio_value ≤ p.peak_value ∧ 0 ≤ p.peak_value) :
    (applyOp p op).portfolio_value ≤ (applyOp p op).peak_value ∧
      0 ≤ (applyOp p op).peak_value := by
  refine ⟨?_, le_trans h.2 (applyOp_peak_mono p op)⟩
  cases op with
  | fill sym q pr side comm =>
    dsimp only [applyOp]
    rw [update_position_peak, update_position_value]
    exact h.1
  | reval prices =>
    dsimp only [applyOp]
    unfold Portfolio.update_prices Portfolio.calculate_portfolio_value
    dsimp only
    split_ifs with hgt
    · exact le_refl _
    · exact not_lt.mp hgt

lemma applyOps_invariant (ops : List Op) : ∀ p : Portfolio,
    p.portfolio_value ≤ p.peak_value → 0 ≤ p.peak_value →
    (applyOps p ops).portfolio_value ≤ (applyOps p ops).peak_value ∧
      0 ≤ (applyOps p ops).peak_value := by
  induction ops with
  | nil => exact fun p h1 h2 => ⟨h1, h2⟩
  | cons op rest ih =>
    intro p h1 h2
    have hstep := applyOp_invariant p op ⟨h1, h2⟩
    exact ih (applyOp p op) hstep.1 hstep.2

/-- C9 counterexample: buy on margin (1 share at 200 from 100 cash),
then revalue the share to 0 — the drawdown is 2, outside `[0, 1]`. -/
theorem drawdown_counterexample :
    Portfolio.get_drawdown (applyOps (Portfolio.init 100)
      [Op.fill ("A") 1 200 Side.buy 0, Op.reval [(("A"), 0)]]) = 2 := by
  norm_num [Portfolio.get_drawdown, applyOps, applyOp, Portfolio.init,
    Portfolio.update_position, Portfolio.update_prices,
    Portfolio.calculate_portfolio_value, applyPriceUpdates, updateAt, updateAtF,
    findPos, Position.update_price, List.foldl]

/-- C9 amended: over every operation sequence from a construction with
non-negative initial capital, the peak value never decreases at any
step and the drawdown is non-negative; the drawdown is moreover at most
1 whenever the current portfolio value is non-negative (a margin-driven
negative value pushes it above 1). -/
theorem peak_drawdown_spec (c : ℚ) (ops : List Op) (op : Op) (hc : 0 ≤ c) :
    (applyOps (Portfolio.init c) ops).peak_value ≤
      (applyOp (applyOps (Portfolio.init c) ops) op).peak_value ∧
    0 ≤ (applyOps (Portfolio.init c) ops).get_drawdown ∧
    (0 ≤ (applyOps (Portfolio.init c) ops).portfolio_value →
      (applyOps (Portfolio.init c) ops).get_drawdown ≤ 1) := by
  obtain ⟨h1, h2⟩ := applyOps_invariant ops (Portfolio.init c) (le_refl c) hc
  refine ⟨applyOp_peak_mono _ op, ?_, ?_⟩
  · unfold Portfolio.get_drawdown
    split_ifs with hz
    · exact le_refl 0
    · exact div_nonneg (sub_nonneg.mpr h1) h2
  · intro hv
    unfold Portfolio.get_drawdown
    split_ifs with hz
    · exact zero_le_one
    · have hpos : 0 < (applyOps (Portfolio.init c) ops).peak_value :=
        lt_of_le_of_ne h2 (Ne.symm hz)
      rw [div_le_one hpos]
      linarith

/-- Witness for C9 amended: the fresh 100-capital ledger before and
after an empty revaluation. -/
theorem peak_drawdown_spec_witness :
    0 ≤ (applyOps (Portfolio.init 100) []).get_drawdown ∧
    (applyOps (Portfolio.init 100) []).get_drawdown ≤ 1 := by
  have h := peak_drawdown_spec 100 [] (Op.reval []) (by norm_num)
  exact ⟨h.2.1, h.2.2 (by norm_num [applyOps, Portfolio.init, List.foldl])⟩

/-- An engine run in which no fill was ever applied: the portfolio seen
by the result stage is the initial one revalued once per trading day
(`self.portfolio.update_prices(self.current_prices)` at each date). -/
def runRevals (p : Portfolio) (pms : List (List (String × ℚ))) : Portfolio :=
  pms.foldl Portfolio.update_prices p

lemma applyPriceUpdates_nil_positions (prices : List (String × ℚ)) :
    applyPriceUpdates [] prices = [] := by
  rw [applyPriceUpdates_eq_map, List.map_nil]

lemma runRevals_no_positions (pms : List (List (String × ℚ))) :
    ∀ p : Portfolio, p.positions = [] →
    (runRevals p pms).positions = [] ∧ (runRevals p pms).cash = p.cash ∧
    (runRevals p pms).trades = p.trades ∧
    (runRevals p pms).equity_curve = p.equity_curve ++
      List.replicate pms.length (EquityPoint.mk p.cash p.cash 0) := by
  induction pms with
  | nil =>
    intro p hp
    refine ⟨hp, rfl, rfl, ?_⟩
    show p.equity_curve = p.equity_curve ++ List.replicate 0 (EquityPoint.mk p.cash p.cash 0)
    simp
  | cons pm rest ih =>
    intro p hp
    have hstep : p.update_prices pm =
        { p with
            portfolio_value := p.cash + 0,
            peak_value := if p.cash + 0 > p.peak_value then p.cash + 0 else p.peak_value,
            equity_curve := p.equity_curve ++
              [{ value := p.cash + 0, cash := p.cash, positions_value := 0 }] } := by
      unfold Portfolio.update_prices Portfolio.calculate_portfolio_value
      rw [hp, applyPriceUpdates_nil_positions]
      rfl
    have hrun : runRevals p (pm :: rest) = runRevals (p.update_prices pm) rest := rfl
    obtain ⟨h1, h2, h3, h4⟩ := ih (p.update_prices pm) (by rw [hstep]; exact hp)
    rw [hrun]
    refine ⟨h1, ?_, ?_, ?_⟩
    · rw [h2, hstep]
    · rw [h3, hstep]
    · rw [h4, hstep]
      simp only [add_zero, List.replicate_succ, List.length_cons, List.append_assoc,
        List.singleton_append]

lemma calculate_returns_replicate (c : ℚ) (n : ℕ) :
    PerformanceMetrics.calculate_returns (List.replicate (n + 1) c) =
      List.replicate n 0 := by
  induction n with
  | zero => rfl
  | succ m ih =>
    have h1 : List.replicate (m + 2) c = c :: c :: List.replicate m c := by
      rw [List.replicate_succ, List.replicate_succ]
    have h2 : List.replicate (m + 1) c = c :: List.replicate m c := List.replicate_succ ..
    unfold PerformanceMetrics.calculate_returns at *
    rw [h1]
    simp only [List.tail_cons, List.zip_cons_cons, List.map_cons]
    rw [h2] at ih
    simp only [List.tail_cons] at ih
    rw [ih, sub_self, zero_div, List.replicate_succ]

lemma sampleVar_replicate_zero (m : ℕ) (h : 2 ≤ m) :
    sampleVar (List.replicate m (0 : ℚ)) = some 0 := by
  have hc : ¬((List.replicate m (0 : ℚ)).length ≤ 1) := by
    simp only [List.length_replicate]
    omega
  unfold sampleVar
  rw [if_neg hc]
  have hmean : listMean (List.replicate m (0 : ℚ)) = 0 := by
    unfold listMean
    rw [List.sum_replicate, smul_zero, zero_div]
  rw [hmean]
  simp

lemma sampleVar_singleton (x : ℚ) : sampleVar [x] = none := by
  have hc : ([x] : List ℚ).length ≤ 1 := by simp
  unfold sampleVar
  rw [if_pos hc]

lemma sharpe_ratio_nil (rf ppy : ℚ) :
    PerformanceMetrics.sharpe_ratio [] rf ppy = some 0 := by
  have hc : ([] : List ℚ).length = 0 ∨ sampleVar [] = some 0 := Or.inl rfl
  unfold PerformanceMetrics.sharpe_ratio
  rw [if_pos hc]

lemma sharpe_ratio_singleton_zero (rf ppy : ℚ) :
    PerformanceMetrics.sharpe_ratio [0] rf ppy = none := by
  have hc : ¬(([0] : List ℚ).length = 0 ∨ sampleVar [0] = some 0) := by
    simp [sampleVar_singleton]
  unfold PerformanceMetrics.sharpe_ratio
  rw [if_neg hc, sampleVar_singleton]

lemma sharpe_ratio_replicate_zero (m : ℕ) (h : 2 ≤ m) (rf ppy : ℚ) :
    PerformanceMetrics.sharpe_ratio (List.replicate m 0) rf ppy = some 0 := by
  have hc : (List.replicate m (0 : ℚ)).length = 0 ∨
      sampleVar (List.replicate m 0) = some 0 :=
    Or.inr (sampleVar_replicate_zero m h)
  unfold PerformanceMetrics.sharpe_ratio
  rw [if_pos hc]

/-- C8 counterexample: a completed two-day run with zero trades.  The
single percentage return has a NaN pandas sample standard deviation
(`ddof = 1` on one sample), `NaN == 0` is false, and the Sharpe ratio
comes out NaN — not the claimed 0 — although the run did record zero
trades. -/
theorem zero_trade_metrics_counterexample :
    PerformanceMetrics.calculate_all_metrics
        (runRevals (Portfolio.init 100000) [[], []]).equity_curve
        (runRevals (Portfolio.init 100000) [[], []]).trades (2/100) =
      some { total_trades := 0, win_rate := 0, profit_factor := 0,
             sharpe := none } := by
  obtain ⟨-, -, h3, h4⟩ := runRevals_no_positions [[], []] (Portfolio.init 100000) rfl
  have hcurve : (runRevals (Portfolio.init 100000) [[], []]).equity_curve =
      List.replicate 2 (EquityPoint.mk 100000 100000 0) := by
    rw [h4]
    rfl
  have htr : (runRevals (Portfolio.init 100000) [[], []]).trades = [] := h3
  have hne : ¬(List.replicate 2 (EquityPoint.mk 100000 100000 0) = []) := by simp
  have hsharpe : PerformanceMetrics.sharpe_ratio
      (PerformanceMetrics.calculate_returns
        ((List.replicate 2 (EquityPoint.mk 100000 100000 0)).map (fun e => e.value)))
      (2/100) 252 = none := by
    rw [List.map_replicate]
    have hr : PerformanceMetrics.calculate_returns (List.replicate 2 (100000 : ℚ)) =
        List.replicate 1 0 := calculate_returns_replicate 100000 1
    rw [hr]
    exact sharpe_ratio_singleton_zero (2/100) 252
  rw [hcurve, htr]
  unfold PerformanceMetrics.calculate_all_metrics
  rw [if_neg hne, Option.some_inj]
  simp only [MetricsRecord.mk.injEq]
  exact ⟨by simp, by simp, by simp, hsharpe⟩

/-- C8 amended: a completed no-trade run whose equity curve has at least
one point and not exactly two yields total_trades = 0, win_rate = 0,
profit_factor = 0 and sharpe_ratio = 0 (with exactly two points the
Sharpe ratio is NaN, and with no points the metrics record is empty). -/
theorem zero_trade_metrics_spec (c : ℚ) (pms : List (List (String × ℚ)))
    (hn1 : 1 ≤ pms.length) (hn2 : pms.length ≠ 2) :
    PerformanceMetrics.calculate_all_metrics
        (runRevals (Portfolio.init c) pms).equity_curve
        (runRevals (Portfolio.init c) pms).trades (2/100) =
      some { total_trades := 0, win_rate := 0, profit_factor := 0,
             sharpe := some 0 } := by
  obtain ⟨-, -, h3, h4⟩ := runRevals_no_positions pms (Portfolio.init c) rfl
  have hcurve : (runRevals (Portfolio.init c) pms).equity_curve =
      List.replicate pms.length (EquityPoint.mk c c 0) := by
    rw [h4]
    rfl
  have htr : (runRevals (Portfolio.init c) pms).trades = [] := h3
  rw [hcurve, htr]
  have hne : ¬(List.replicate pms.length (EquityPoint.mk c c 0) = []) := by
    simp only [List.replicate_eq_nil_iff]
    omega
  have hsharpe : PerformanceMetrics.sharpe_ratio
      (PerformanceMetrics.calculate_returns
        ((List.replicate pms.length (EquityPoint.mk c c 0)).map (fun e => e.value)))
      (2/100) 252 = some 0 := by
    rw [List.map_replicate]
    obtain ⟨k, hk⟩ : ∃ k, pms.length = k + 1 := ⟨pms.length - 1, by omega⟩
    rw [hk, calculate_returns_replicate]
    rcases Nat.eq_zero_or_pos k with hk0 | hkpos
    · rw [hk0]
      exact sharpe_ratio_nil (2/100) 252
    · exact sharpe_ratio_replicate_zero k (by omega) (2/100) 252
  unfold PerformanceMetrics.calculate_all_metrics
  rw [if_neg hne, Option.some_inj]
  simp only [MetricsRecord.mk.injEq]
  exact ⟨by simp, by simp, by simp, hsharpe⟩

/-- Witness for C8 amended: a three-day no-trade run. -/
theorem zero_trade_metrics_spec_witness :
    PerformanceMetrics.calculate_all_metrics
        (runRevals (Portfolio.init 100000) [[], [], []]).equity_curve
        (runRevals (Portfolio.init 100000) [[], [], []]).trades (2/100) =
      some { total_trades := 0, win_rate := 0, profit_factor := 0,
             sharpe := some 0 } :=
  zero_trade_metrics_spec 100000 [[], [], []] (by norm_num) (by norm_num)

/-- C10.  A SELL on a symbol with no open position still appends a trade
record with zero P&L while leaving cash and positions untouched. -/
theorem sell_without_position_spec (p : Portfolio) (sym : String) (q : ℤ)
    (pr comm : ℚ) (h : findPos p.positions sym = none) :
    (p.update_position sym q pr Side.sell comm).cash = p.cash ∧
    (p.update_position sym q pr Side.sell comm).positions = p.positions ∧
    (p.update_position sym q pr Side.sell comm).trades =
      p.trades ++ [{ symbol := sym, side := Side.sell, quantity := q, price := pr,
                     commission := comm, pnl := 0 }] := by
  refine ⟨?_, ?_, ?_⟩ <;> simp [Portfolio.update_position, h]

/-- Witness for C10: selling on a fresh ledger with no position. -/
theorem sell_without_position_spec_witness :
    ((Portfolio.init 100).update_position ("A") 5 7 Side.sell 2).cash = 100 ∧
    ((Portfolio.init 100).update_position ("A") 5 7 Side.sell 2).positions = [] ∧
    ((Portfolio.init 100).update_position ("A") 5 7 Side.sell 2).trades =
      [{ symbol := ("A"), side := Side.sell, quantity := 5, price := 7,
         commission := 2, pnl := 0 }] := by
  have h := sell_without_position_spec (Portfolio.init 100) ("A") 5 7 2 (by simp [Portfolio.init, findPos])
  exact ⟨h.1, h.2.1, h.2.2⟩
